import Mathlib

/-!
Verification of the vsoc shared-memory region layout planner
(`common/vsoc/lib/vsoc_memory.cpp`) and of the socket-forwarding proxy
(`common/frontend/socket_forward_proxy/main.cpp`) from the cuttlefish
repository.  The C++ code is shallowly embedded: machine integers become
`Nat` (with explicit `% 2 ^ 32` where 32-bit wraparound matters), the
mutable vector of regions becomes explicit state passing over `List`,
and `LOG(FATAL)` becomes an `Except String` error result.
-/

namespace Vsoc

/-- Static description of one region, mirroring the constructor arguments of
`VSoCRegionLayoutImpl` (region_name, layout_size, the two signal-table log
sizes and the optional managed_by name; `none` models the `nullptr` default). -/
structure RegionSpec where
  region_name : String
  layout_size : Nat
  guest_to_host_signal_table_log_size : Nat
  host_to_guest_signal_table_log_size : Nat
  managed_by : Option String
deriving DecidableEq

/-- One region of the computed layout: the static spec plus the mutable
fields `begin_offset_` and `size_` of `VSoCRegionLayoutImpl`. -/
structure Region where
  spec : RegionSpec
  begin_offset : Nat
  size : Nat
deriving DecidableEq

/-- Environment constants of the planner: the value returned by
`sysconf(_SC_PAGESIZE)` and the sizes of the C structs
`vsoc_shm_layout_descriptor` and `vsoc_device_region` (declared in
`uapi/vsoc_shm.h`, outside the excerpt), plus
`CURRENT_VSOC_LAYOUT_MINOR_VERSION`. -/
structure Params where
  page_size : Nat
  layout_descriptor_size : Nat
  device_region_size : Nat
  minor_version : Nat

/-- `AlignToPageSize` from vsoc_memory.cpp:
`((val + (page_size - 1)) / page_size) * page_size`. -/
def AlignToPageSize (page_size val : Nat) : Nat :=
  ((val + (page_size - 1)) / page_size) * page_size

/-- The loop body of `AlignToPowerOf2`, with an explicit fuel argument.
Each fuel step is one evaluation of the guard `power_of_2 < val`; the C
loop has no bound, and `AlignToPowerOf2` below supplies enough fuel for
every value on which the C loop terminates (mathematical integers, no
wraparound; see `alignU32Loop` for the faithful 32-bit version). -/
def alignLoop : Nat → Nat → Nat → Nat
  | 0, _, power_of_2 => power_of_2
  | fuel + 1, val, power_of_2 =>
    if power_of_2 < val then alignLoop fuel val (2 * power_of_2) else power_of_2

/-- `AlignToPowerOf2` from vsoc_memory.cpp: starts at `power_of_2 = 1` and
doubles while `power_of_2 < val`.  `val` steps of fuel always suffice
because the iterate reaches `2 ^ k ≥ val` for some `k < val`. -/
def AlignToPowerOf2 (val : Nat) : Nat := alignLoop val val 1

/-- The same doubling loop on actual `uint32_t` arithmetic: the doubling is
taken `% 2 ^ 32` and running out of fuel returns `none` (the C loop would
still be running after that many iterations). -/
def alignU32Loop : Nat → Nat → Nat → Option Nat
  | 0, _, _ => none
  | fuel + 1, val, power_of_2 =>
    if power_of_2 < val then alignU32Loop fuel val (2 * power_of_2 % 2 ^ 32)
    else some power_of_2

/-- `AlignToPowerOf2` under faithful `uint32_t` semantics, with fuel. -/
def alignToPowerOf2U32 (fuel val : Nat) : Option Nat := alignU32Loop fuel val 1

/-- `VSoCRegionLayoutImpl::GetOffsetOfRegionData`: two signal tables of
`2 ^ log_size` words of `sizeof(uint32_t) = 4` bytes plus two interrupt
signal words. -/
def GetOffsetOfRegionData (s : RegionSpec) : Nat :=
  2 ^ s.guest_to_host_signal_table_log_size * 4 +
    2 ^ s.host_to_guest_signal_table_log_size * 4 + 2 * 4

/-- `VSoCRegionLayoutImpl::GetMinRegionSize`: data offset plus layout size,
aligned to the page size. -/
def GetMinRegionSize (page_size : Nat) (s : RegionSpec) : Nat :=
  AlignToPageSize page_size (GetOffsetOfRegionData s + s.layout_size)

/-- The `VSoCRegionLayoutImpl` constructor: `size_ = GetMinRegionSize()`,
`begin_offset_` zero-initialised. -/
def initRegion (page_size : Nat) (s : RegionSpec) : Region :=
  ⟨s, 0, GetMinRegionSize page_size s⟩

/-- The loop of `VSoCMemoryLayoutImpl::UpdateRegionOffsetsAndDeviceSize`:
assign consecutive begin offsets starting at `offset` and return the
updated regions together with the final offset (from which the caller
computes the device size). -/
def UpdateRegionOffsets : Nat → List Region → List Region × Nat
  | offset, [] => ([], offset)
  | offset, r :: rs =>
    let rest := UpdateRegionOffsets (offset + r.size) rs
    ({ r with begin_offset := offset } :: rest.1, rest.2)

/-- The computed memory layout: the region vector `regions_` and
`device_size_` of `VSoCMemoryLayoutImpl`. -/
structure Layout where
  regions : List Region
  device_size : Nat
deriving DecidableEq

/-- Name lookup in `region_idx_by_name_` (a `std::map` from region name to
index; names are unique after construction, so lookup of first match is
equivalent). -/
def regionIndexByName : List Region → String → Option Nat
  | [], _ => none
  | r :: rest, name =>
    if r.spec.region_name = name then some 0
    else (regionIndexByName rest name).map (· + 1)

/-- List of the declared region names (the key set of `GetNameToIndexMap`). -/
def namesOf (specs : List RegionSpec) : List String :=
  specs.map RegionSpec.region_name

/-- The constructor's check on one spec: `managed_by` is null or names some
region of the list.  Mirrors `region_idx_by_name_.count(managed_by())`,
where the map is built from the complete region vector (vsoc_memory.cpp
lines 140-146): the lookup is not restricted to regions declared earlier. -/
def managerKnown (specs : List RegionSpec) (s : RegionSpec) : Bool :=
  match s.managed_by with
  | none => true
  | some m => specs.any (fun q => q.region_name = m)

/-- The `VSoCMemoryLayoutImpl` constructor: `GetNameToIndexMap` dies on a
duplicate name, the body dies when a `managed_by` name is unknown, then
offsets start at the page-aligned end of the global header plus the
region descriptor table, and the device size is the final offset rounded
up to a power of two. -/
def mkLayout (p : Params) (specs : List RegionSpec) : Except String Layout :=
  if ¬ (namesOf specs).Nodup then
    Except.error "region name used for more than one region"
  else if ¬ specs.all (managerKnown specs) then
    Except.error "managed by unknown region"
  else
    let offset0 := AlignToPageSize p.page_size
      (p.layout_descriptor_size + specs.length * p.device_region_size)
    let pair := UpdateRegionOffsets offset0 (specs.map (initRegion p.page_size))
    Except.ok ⟨pair.1, AlignToPowerOf2 pair.2⟩

/-- Default `Region` used for the (in-bounds by construction) vector access
`regions_[index]`. -/
def defaultRegion : Region := ⟨⟨"", 0, 0, 0, none⟩, 0, 0⟩

/-- `VSoCMemoryLayoutImpl::ResizeRegion`: returns `(false, unchanged)` when
the name is unknown or the page-aligned requested size is below the
region's minimum size; otherwise sets the region's size and recomputes the
begin offsets of all later regions and the device size. -/
def ResizeRegion (p : Params) (l : Layout) (region_name : String)
    (new_min_size : Nat) : Bool × Layout :=
  match regionIndexByName l.regions region_name with
  | none => (false, l)
  | some index =>
    let region := l.regions.getD index defaultRegion
    let min_required_size := GetMinRegionSize p.page_size region.spec
    let new_size := AlignToPageSize p.page_size new_min_size
    if new_size < min_required_size then (false, l)
    else
      let region' := { region with size := new_size }
      let offset := region'.begin_offset + region'.size
      let pair := UpdateRegionOffsets offset (l.regions.drop (index + 1))
      (true, ⟨l.regions.take index ++ region' :: pair.1, AlignToPowerOf2 pair.2⟩)

/-- `VSoCMemoryLayoutImpl::GetMemoryFileSize`. -/
def GetMemoryFileSize (l : Layout) : Nat := l.device_size

/-! ### Arithmetic facts about the two alignment helpers -/

theorem alignToPageSize_mod (p v : Nat) : AlignToPageSize p v % p = 0 :=
  Nat.mul_mod_left _ _

theorem le_alignToPageSize (p v : Nat) (hp : 0 < p) : v ≤ AlignToPageSize p v := by
  unfold AlignToPageSize
  have h1 := Nat.div_add_mod (v + (p - 1)) p
  have h2 := Nat.mod_lt (v + (p - 1)) hp
  rw [Nat.mul_comm]
  omega

theorem alignLoop_two_pow : ∀ fuel j val : Nat, Nat.clog 2 val ≤ j + fuel →
    alignLoop fuel val (2 ^ j) = 2 ^ max j (Nat.clog 2 val) := by
  intro fuel
  induction fuel with
  | zero =>
    intro j val h
    simp only [alignLoop]
    rw [Nat.max_eq_left (by omega)]
  | succ n ih =>
    intro j val h
    simp only [alignLoop]
    by_cases hlt : 2 ^ j < val
    · rw [if_pos hlt]
      have hj : j < Nat.clog 2 val := by
        by_contra hh
        push_neg at hh
        have := (Nat.le_pow_iff_clog_le (by norm_num)).mpr hh
        omega
      have h2 : 2 * 2 ^ j = 2 ^ (j + 1) := by
        rw [Nat.pow_succ, Nat.mul_comm]
      rw [h2, ih (j + 1) val (by omega)]
      rw [Nat.max_eq_right (by omega), Nat.max_eq_right (by omega)]
    · rw [if_neg hlt]
      have hc : Nat.clog 2 val ≤ j :=
        (Nat.le_pow_iff_clog_le (by norm_num)).mp (by omega)
      rw [Nat.max_eq_left hc]

theorem alignToPowerOf2_eq (val : Nat) :
    AlignToPowerOf2 val = 2 ^ Nat.clog 2 val := by
  have h2 : val ≤ 2 ^ val := Nat.le_of_lt (Nat.lt_two_pow val)
  have h3 : Nat.clog 2 val ≤ val := (Nat.le_pow_iff_clog_le (by norm_num)).mp h2
  have h := alignLoop_two_pow val 0 val (by omega)
  unfold AlignToPowerOf2
  rw [show (1 : Nat) = 2 ^ 0 from rfl, h, Nat.max_eq_right (Nat.zero_le _)]

theorem le_alignToPowerOf2 (val : Nat) : val ≤ AlignToPowerOf2 val := by
  rw [alignToPowerOf2_eq]
  exact Nat.le_pow_clog (by norm_num) val

theorem alignToPowerOf2_le_pow (val m : Nat) (h : val ≤ 2 ^ m) :
    AlignToPowerOf2 val ≤ 2 ^ m := by
  rw [alignToPowerOf2_eq]
  exact Nat.pow_le_pow_right (by norm_num)
    ((Nat.le_pow_iff_clog_le (by norm_num)).mp h)

theorem add_mod_zero {p a b : Nat} (ha : a % p = 0) (hb : b % p = 0) :
    (a + b) % p = 0 := by
  rw [Nat.add_mod, ha, hb]
  simp

/-! ### Structural facts about `UpdateRegionOffsets` -/

theorem updateOffsets_nil (o : Nat) : UpdateRegionOffsets o [] = ([], o) := rfl

theorem updateOffsets_cons_fst (o : Nat) (r : Region) (rs : List Region) :
    (UpdateRegionOffsets o (r :: rs)).1 =
      { r with begin_offset := o } :: (UpdateRegionOffsets (o + r.size) rs).1 := rfl

theorem updateOffsets_cons_snd (o : Nat) (r : Region) (rs : List Region) :
    (UpdateRegionOffsets o (r :: rs)).2 =
      (UpdateRegionOffsets (o + r.size) rs).2 := rfl

theorem updateOffsets_length : ∀ (rs : List Region) (o : Nat),
    (UpdateRegionOffsets o rs).1.length = rs.length := by
  intro rs
  induction rs with
  | nil => intro o; rfl
  | cons r rest ih =>
    intro o
    rw [updateOffsets_cons_fst, List.length_cons, List.length_cons, ih]

theorem updateOffsets_shape : ∀ (rs : List Region) (o : Nat),
    (UpdateRegionOffsets o rs).1.map (fun r => (r.spec, r.size)) =
      rs.map (fun r => (r.spec, r.size)) := by
  intro rs
  induction rs with
  | nil => intro o; rfl
  | cons r rest ih =>
    intro o
    rw [updateOffsets_cons_fst, List.map_cons, List.map_cons, ih]

theorem updateOffsets_shape_idx (rs : List Region) (o i : Nat) :
    ((UpdateRegionOffsets o rs).1[i]?).map (fun r => (r.spec, r.size)) =
      (rs[i]?).map (fun r => (r.spec, r.size)) := by
  have h := updateOffsets_shape rs o
  have h1 := List.getElem?_map (fun r : Region => (r.spec, r.size))
    (UpdateRegionOffsets o rs).1 i
  have h2 := List.getElem?_map (fun r : Region => (r.spec, r.size)) rs i
  rw [← h1, ← h2, h]

theorem updateOffsets_head : ∀ (rs : List Region) (o : Nat) (b : Region),
    (UpdateRegionOffsets o rs).1[0]? = some b → b.begin_offset = o := by
  intro rs o b h
  cases rs with
  | nil => simp [updateOffsets_nil] at h
  | cons r rest =>
    rw [updateOffsets_cons_fst] at h
    simp at h
    rw [← h]

/-- Contiguity: each region ends exactly where the next one begins
(indexed over `getElem?`). -/
def ContiguousRegions (rs : List Region) : Prop :=
  ∀ i a b, rs[i]? = some a → rs[i + 1]? = some b →
    a.begin_offset + a.size = b.begin_offset

theorem updateOffsets_contiguous : ∀ (rs : List Region) (o : Nat),
    ContiguousRegions (UpdateRegionOffsets o rs).1 := by
  intro rs
  induction rs with
  | nil =>
    intro o i a b ha hb
    simp [updateOffsets_nil] at ha
  | cons r rest ih =>
    intro o i a b ha hb
    rw [updateOffsets_cons_fst] at ha hb
    cases i with
    | zero =>
      rw [List.getElem?_cons_zero] at ha
      rw [List.getElem?_cons_succ] at hb
      have hbb := updateOffsets_head rest (o + r.size) b hb
      have haa : a = { r with begin_offset := o } := by
        have := ha
        simp at this
        rw [← this]
      rw [haa, hbb]
    | succ j =>
      rw [List.getElem?_cons_succ] at ha hb
      exact ih (o + r.size) j a b ha hb

theorem updateOffsets_last : ∀ (rs : List Region) (o : Nat) (x : Region),
    (UpdateRegionOffsets o rs).1[(UpdateRegionOffsets o rs).1.length - 1]? =
      some x →
    x.begin_offset + x.size = (UpdateRegionOffsets o rs).2 := by
  intro rs
  induction rs with
  | nil =>
    intro o x h
    simp [updateOffsets_nil] at h
  | cons r rest ih =>
    intro o x h
    rw [updateOffsets_cons_fst, updateOffsets_cons_snd] at *
    cases rest with
    | nil =>
      simp [updateOffsets_nil] at h ⊢
      rw [← h]
    | cons r2 rest2 =>
      have hlen : ((UpdateRegionOffsets (o + r.size) (r2 :: rest2)).1).length =
          rest2.length + 1 := by
        rw [updateOffsets_length]
        rfl
      rw [List.length_cons, hlen] at h
      have hidx : rest2.length + 1 + 1 - 1 = (rest2.length + 1 - 1) + 1 := by omega
      rw [hidx, List.getElem?_cons_succ] at h
      have := ih (o + r.size) x
      rw [hlen] at this
      exact this h

theorem updateOffsets_aligned : ∀ (rs : List Region) (o p : Nat),
    o % p = 0 → (∀ r ∈ rs, r.size % p = 0) →
    ∀ x ∈ (UpdateRegionOffsets o rs).1,
      x.begin_offset % p = 0 ∧ x.size % p = 0 := by
  intro rs
  induction rs with
  | nil =>
    intro o p ho hs x hx
    simp [updateOffsets_nil] at hx
  | cons r rest ih =>
    intro o p ho hs x hx
    rw [updateOffsets_cons_fst] at hx
    rcases List.mem_cons.mp hx with h | h
    · constructor
      · rw [h]; exact ho
      · rw [h]
        exact hs r (List.mem_cons_self r rest)
    · exact ih (o + r.size) p
        (add_mod_zero ho (hs r (List.mem_cons_self r rest)))
        (fun q hq => hs q (List.mem_cons_of_mem r hq)) x h

/-! ### Name lookup facts -/

theorem regionIndexByName_lt : ∀ (rs : List Region) (name : String) (idx : Nat),
    regionIndexByName rs name = some idx → idx < rs.length := by
  intro rs
  induction rs with
  | nil => intro name idx h; simp [regionIndexByName] at h
  | cons r rest ih =>
    intro name idx h
    simp only [regionIndexByName] at h
    by_cases hn : r.spec.region_name = name
    · rw [if_pos hn] at h
      cases h
      simp
    · rw [if_neg hn] at h
      rcases Option.map_eq_some'.mp h with ⟨j, hj, hidx⟩
      have := ih name j hj
      rw [List.length_cons]
      omega

/-! ### Well-formedness of the computed layout -/

/-- The first region starts at the page-aligned end of the global header and
the region descriptor table. -/
def FirstRegionOffsetOk (p : Params) (l : Layout) : Prop :=
  ∀ r, l.regions[0]? = some r →
    r.begin_offset = AlignToPageSize p.page_size
      (p.layout_descriptor_size + l.regions.length * p.device_region_size)

/-- Every begin offset and region size is a multiple of the page size. -/
def AlignedRegions (p : Params) (l : Layout) : Prop :=
  ∀ r ∈ l.regions, r.begin_offset % p.page_size = 0 ∧ r.size % p.page_size = 0

/-- Well-formedness of a layout: first-offset placement, page alignment of
every region, and contiguity of consecutive regions. -/
def WellFormed (p : Params) (l : Layout) : Prop :=
  FirstRegionOffsetOk p l ∧ AlignedRegions p l ∧ ContiguousRegions l.regions

theorem mkLayout_wellFormed (p : Params) (specs : List RegionSpec) (l : Layout)
    (h : mkLayout p specs = Except.ok l) :
    WellFormed p l := by
  simp only [mkLayout] at h
  split at h
  · exact absurd h (by simp)
  · split at h
    · exact absurd h (by simp)
    · have hl := Except.ok.inj h
      subst hl
      refine ⟨?_, ?_, ?_⟩
      · intro r hr
        have hb := updateOffsets_head _ _ _ hr
        rw [hb, updateOffsets_length, List.length_map]
      · intro x hx
        refine updateOffsets_aligned _ _ _ (alignToPageSize_mod _ _) ?_ x hx
        intro q hq
        rcases List.mem_map.mp hq with ⟨s, hs, hqs⟩
        rw [← hqs]
        exact alignToPageSize_mod _ _
      · exact updateOffsets_contiguous _ _

/-! ### Unfolding lemmas for `ResizeRegion` -/

theorem resizeRegion_of_none (p : Params) (l : Layout) (name : String) (sz : Nat)
    (h : regionIndexByName l.regions name = none) :
    ResizeRegion p l name sz = (false, l) := by
  unfold ResizeRegion
  rw [h]

theorem resizeRegion_of_some (p : Params) (l : Layout) (name : String) (sz : Nat)
    (idx : Nat) (h : regionIndexByName l.regions name = some idx) :
    ResizeRegion p l name sz =
      (if AlignToPageSize p.page_size sz <
          GetMinRegionSize p.page_size (l.regions.getD idx defaultRegion).spec
       then (false, l)
       else
        (true,
          ⟨l.regions.take idx ++
              { l.regions.getD idx defaultRegion with
                  size := AlignToPageSize p.page_size sz } ::
              (UpdateRegionOffsets
                ((l.regions.getD idx defaultRegion).begin_offset +
                  AlignToPageSize p.page_size sz)
                (l.regions.drop (idx + 1))).1,
            AlignToPowerOf2
              (UpdateRegionOffsets
                ((l.regions.getD idx defaultRegion).begin_offset +
                  AlignToPageSize p.page_size sz)
                (l.regions.drop (idx + 1))).2⟩)) := by
  unfold ResizeRegion
  rw [h]

theorem getD_of_getElem? (rs : List Region) (idx : Nat) (r : Region)
    (h : rs[idx]? = some r) : rs.getD idx defaultRegion = r := by
  rw [List.getD_eq_getElem?_getD, h]
  rfl

theorem resize_ok_shape (p : Params) (l : Layout) (name : String) (sz : Nat)
    (l' : Layout) (h : ResizeRegion p l name sz = (true, l')) :
    ∃ idx region, regionIndexByName l.regions name = some idx ∧
      l.regions[idx]? = some region ∧
      GetMinRegionSize p.page_size region.spec ≤ AlignToPageSize p.page_size sz ∧
      l' = ⟨l.regions.take idx ++
          { region with size := AlignToPageSize p.page_size sz } ::
          (UpdateRegionOffsets
            (region.begin_offset + AlignToPageSize p.page_size sz)
            (l.regions.drop (idx + 1))).1,
        AlignToPowerOf2
          (UpdateRegionOffsets
            (region.begin_offset + AlignToPageSize p.page_size sz)
            (l.regions.drop (idx + 1))).2⟩ := by
  cases hidx : regionIndexByName l.regions name with
  | none =>
    rw [resizeRegion_of_none p l name sz hidx] at h
    exact absurd (congrArg Prod.fst h) (by simp)
  | some idx =>
    rw [resizeRegion_of_some p l name sz idx hidx] at h
    have hlt : idx < l.regions.length := regionIndexByName_lt _ _ _ hidx
    have hsome : l.regions[idx]? = some (l.regions.getD idx defaultRegion) := by
      rw [List.getD_eq_getElem?_getD, List.getElem?_eq_getElem hlt]
      rfl
    split at h
    · exact absurd (congrArg Prod.fst h) (by simp)
    · refine ⟨idx, l.regions.getD idx defaultRegion, rfl, hsome, by omega, ?_⟩
      have := congrArg Prod.snd h
      exact this.symm

theorem resize_wellFormed (p : Params) (l l' : Layout) (name : String) (sz : Nat)
    (hwf : WellFormed p l) (h : ResizeRegion p l name sz = (true, l')) :
    WellFormed p l' := by
  obtain ⟨idx, region, hidx, hreg, hge, hl'⟩ := resize_ok_shape p l name sz l' h
  obtain ⟨hfirst, halign, hcontig⟩ := hwf
  have hlt : idx < l.regions.length := regionIndexByName_lt _ _ _ hidx
  have htake : (l.regions.take idx).length = idx := by
    rw [List.length_take]; omega
  have htail : (UpdateRegionOffsets
      (region.begin_offset + AlignToPageSize p.page_size sz)
      (l.regions.drop (idx + 1))).1.length = l.regions.length - (idx + 1) := by
    rw [updateOffsets_length, List.length_drop]
  subst hl'
  have hlen : (l.regions.take idx ++
      { region with size := AlignToPageSize p.page_size sz } ::
      (UpdateRegionOffsets
        (region.begin_offset + AlignToPageSize p.page_size sz)
        (l.regions.drop (idx + 1))).1).length = l.regions.length := by
    rw [List.length_append, htake, List.length_cons, htail]
    omega
  refine ⟨?_, ?_, ?_⟩
  · -- the first region still sits at the aligned post-header offset
    intro r hr
    simp only [hlen]
    by_cases h0 : 0 < idx
    · rw [List.getElem?_append_left (by rw [htake]; omega),
        List.getElem?_take_of_lt h0] at hr
      exact hfirst r hr
    · have hidx0 : idx = 0 := by omega
      subst hidx0
      simp only [List.take_zero, List.nil_append, List.getElem?_cons_zero,
        Option.some.injEq] at hr
      have hr0 : l.regions[0]? = some region := hreg
      have := hfirst region hr0
      rw [← hr]
      exact this
  · -- page alignment of every region
    intro x hx
    rcases List.mem_append.mp hx with hx | hx
    · exact halign x (List.mem_of_mem_take hx)
    · rcases List.mem_cons.mp hx with hx | hx
      · subst hx
        exact ⟨(halign region (List.getElem?_mem hreg)).1, alignToPageSize_mod _ _⟩
      · refine updateOffsets_aligned _ _ _
          (add_mod_zero (halign region (List.getElem?_mem hreg)).1
            (alignToPageSize_mod _ _)) ?_ x hx
        intro q hq
        exact (halign q (List.mem_of_mem_drop hq)).2
  · -- contiguity
    intro i a b ha hb
    by_cases hiA : i + 1 < idx
    · rw [List.getElem?_append_left (by rw [htake]; omega),
        List.getElem?_take_of_lt (by omega)] at ha
      rw [List.getElem?_append_left (by rw [htake]; omega),
        List.getElem?_take_of_lt (by omega)] at hb
      exact hcontig i a b ha hb
    · by_cases hiB : i + 1 = idx
      · rw [List.getElem?_append_left (by rw [htake]; omega),
          List.getElem?_take_of_lt (by omega)] at ha
        rw [List.getElem?_append_right (by rw [htake]; omega)] at hb
        rw [htake] at hb
        have hzero : i + 1 - idx = 0 := by omega
        rw [hzero, List.getElem?_cons_zero, Option.some.injEq] at hb
        have hstep := hcontig i a region ha (by rw [hiB]; exact hreg)
        rw [← hb]
        exact hstep
      · -- i ≥ idx : both sides live in the recomputed suffix
        have hge' : idx ≤ i := by omega
        rw [List.getElem?_append_right (by rw [htake]; omega), htake] at ha
        rw [List.getElem?_append_right (by rw [htake]; omega), htake] at hb
        by_cases hieq : i = idx
        · subst hieq
          have hzero : i - i = 0 := by omega
          rw [hzero, List.getElem?_cons_zero, Option.some.injEq] at ha
          have hone : i + 1 - i = 1 := by omega
          rw [hone] at hb
          rw [show (1 : Nat) = 0 + 1 from rfl, List.getElem?_cons_succ] at hb
          have hbb := updateOffsets_head _ _ _ hb
          rw [← ha, hbb]
        · obtain ⟨j, hj⟩ : ∃ j, i - idx = j + 1 := ⟨i - idx - 1, by omega⟩
          rw [hj, List.getElem?_cons_succ] at ha
          have hj1 : i + 1 - idx = (j + 1) + 1 := by omega
          rw [hj1, List.getElem?_cons_succ] at hb
          exact updateOffsets_contiguous _ _ j a b ha hb

/-! ### The device size is the least power of two covering the last region -/

/-- The device size is a power of two, and it is the least power of two that
is at least the end offset of the last region. -/
def DeviceSizeOk (l : Layout) : Prop :=
  (∃ k, l.device_size = 2 ^ k) ∧
  ∀ r, l.regions[l.regions.length - 1]? = some r →
    r.begin_offset + r.size ≤ l.device_size ∧
    ∀ m, r.begin_offset + r.size ≤ 2 ^ m → l.device_size ≤ 2 ^ m

theorem updateOffsets_deviceSizeOk (rs : List Region) (o : Nat) :
    DeviceSizeOk ⟨(UpdateRegionOffsets o rs).1,
      AlignToPowerOf2 (UpdateRegionOffsets o rs).2⟩ := by
  constructor
  · exact ⟨Nat.clog 2 (UpdateRegionOffsets o rs).2, alignToPowerOf2_eq _⟩
  · intro r hr
    have hend := updateOffsets_last rs o r hr
    constructor
    · rw [hend]
      exact le_alignToPowerOf2 _
    · intro m hm
      rw [hend] at hm
      exact alignToPowerOf2_le_pow _ _ hm

theorem mkLayout_deviceSizeOk (p : Params) (specs : List RegionSpec) (l : Layout)
    (h : mkLayout p specs = Except.ok l) : DeviceSizeOk l := by
  simp only [mkLayout] at h
  split at h
  · exact absurd h (by simp)
  · split at h
    · exact absurd h (by simp)
    · have hl := Except.ok.inj h
      subst hl
      exact updateOffsets_deviceSizeOk _ _

theorem resize_deviceSizeOk (p : Params) (l l' : Layout) (name : String)
    (sz : Nat) (h : ResizeRegion p l name sz = (true, l')) : DeviceSizeOk l' := by
  obtain ⟨idx, region, hidx, hreg, hge, hl'⟩ := resize_ok_shape p l name sz l' h
  have hlt : idx < l.regions.length := regionIndexByName_lt _ _ _ hidx
  have htake : (l.regions.take idx).length = idx := by
    rw [List.length_take]; omega
  subst hl'
  constructor
  · exact ⟨Nat.clog 2 _, alignToPowerOf2_eq _⟩
  · intro r hr
    have htail : (UpdateRegionOffsets
        (region.begin_offset + AlignToPageSize p.page_size sz)
        (l.regions.drop (idx + 1))).1.length = l.regions.length - (idx + 1) := by
      rw [updateOffsets_length, List.length_drop]
    have hlen : (l.regions.take idx ++
        { region with size := AlignToPageSize p.page_size sz } ::
        (UpdateRegionOffsets
          (region.begin_offset + AlignToPageSize p.page_size sz)
          (l.regions.drop (idx + 1))).1).length = l.regions.length := by
      rw [List.length_append, htake, List.length_cons, htail]
      omega
    rw [hlen, List.getElem?_append_right (by rw [htake]; omega), htake] at hr
    have hend : r.begin_offset + r.size =
        (UpdateRegionOffsets
          (region.begin_offset + AlignToPageSize p.page_size sz)
          (l.regions.drop (idx + 1))).2 := by
      by_cases hz : l.regions.length - 1 - idx = 0
      · rw [hz, List.getElem?_cons_zero, Option.some.injEq] at hr
        have hdrop : l.regions.drop (idx + 1) = [] := by
          have : (l.regions.drop (idx + 1)).length = 0 := by
            rw [List.length_drop]; omega
          exact List.eq_nil_of_length_eq_zero this
        rw [hdrop, updateOffsets_nil]
        rw [← hr]
      · obtain ⟨j, hj⟩ : ∃ j, l.regions.length - 1 - idx = j + 1 :=
          ⟨l.regions.length - 1 - idx - 1, by omega⟩
        rw [hj, List.getElem?_cons_succ] at hr
        have hjlast : j = (UpdateRegionOffsets
            (region.begin_offset + AlignToPageSize p.page_size sz)
            (l.regions.drop (idx + 1))).1.length - 1 := by
          rw [htail]; omega
        rw [hjlast] at hr
        exact updateOffsets_last _ _ _ hr
    rw [hend]
    exact ⟨le_alignToPowerOf2 _, fun m hm => alignToPowerOf2_le_pow _ _ hm⟩

/-! ### Frame property of `ResizeRegion` -/

theorem map_pair_components {o1 o2 : Option Region}
    (h : o1.map (fun r => (r.spec, r.size)) = o2.map (fun r => (r.spec, r.size))) :
    o1.map Region.size = o2.map Region.size ∧
      o1.map Region.spec = o2.map Region.spec := by
  cases o1 with
  | none => cases o2 with
    | none => exact ⟨rfl, rfl⟩
    | some b => simp at h
  | some a => cases o2 with
    | none => simp at h
    | some b =>
      simp only [Option.map_some', Option.some.injEq, Prod.mk.injEq] at h
      simp [h.1, h.2]

theorem resize_frame_helper (p : Params) (l l' : Layout) (name : String)
    (sz idx : Nat) (hidx : regionIndexByName l.regions name = some idx)
    (h : ResizeRegion p l name sz = (true, l')) :
    l'.regions.length = l.regions.length ∧
    (∀ i, i < idx → l'.regions[i]? = l.regions[i]?) ∧
    (l'.regions[idx]?).map Region.begin_offset =
      (l.regions[idx]?).map Region.begin_offset ∧
    (l'.regions[idx]?).map Region.spec = (l.regions[idx]?).map Region.spec ∧
    (∀ i, idx < i →
      (l'.regions[i]?).map Region.size = (l.regions[i]?).map Region.size ∧
      (l'.regions[i]?).map Region.spec = (l.regions[i]?).map Region.spec) := by
  obtain ⟨idx', region, hidx', hreg, hge, hl'⟩ := resize_ok_shape p l name sz l' h
  have hii : idx = idx' := by
    rw [hidx] at hidx'
    exact Option.some.inj hidx'
  subst hii
  have hlt : idx < l.regions.length := regionIndexByName_lt _ _ _ hidx
  have htake : (l.regions.take idx).length = idx := by
    rw [List.length_take]; omega
  subst hl'
  refine ⟨?_, ?_, ?_, ?_, ?_⟩
  · rw [List.length_append, htake, List.length_cons, updateOffsets_length,
      List.length_drop]
    omega
  · intro i hi
    rw [List.getElem?_append_left (by rw [htake]; omega),
      List.getElem?_take_of_lt hi]
  · rw [List.getElem?_append_right (le_of_eq htake), htake,
      Nat.sub_self, List.getElem?_cons_zero, hreg]
    rfl
  · rw [List.getElem?_append_right (le_of_eq htake), htake,
      Nat.sub_self, List.getElem?_cons_zero, hreg]
    rfl
  · intro i hi
    rw [List.getElem?_append_right (by rw [htake]; omega), htake]
    obtain ⟨j, hj⟩ : ∃ j, i - idx = j + 1 := ⟨i - idx - 1, by omega⟩
    rw [hj, List.getElem?_cons_succ]
    have hshape := updateOffsets_shape_idx (l.regions.drop (idx + 1))
      (region.begin_offset + AlignToPageSize p.page_size sz) j
    rw [List.getElem?_drop] at hshape
    have hidxeq : idx + 1 + j = i := by omega
    rw [hidxeq] at hshape
    exact map_pair_components hshape

/-! ### When `ResizeRegion` rejects -/

theorem resize_reject_iff (p : Params) (l : Layout) (name : String) (sz : Nat) :
    (ResizeRegion p l name sz = (false, l) ↔
      regionIndexByName l.regions name = none ∨
      ∃ idx, regionIndexByName l.regions name = some idx ∧
        AlignToPageSize p.page_size sz <
          GetMinRegionSize p.page_size (l.regions.getD idx defaultRegion).spec) ∧
    ((ResizeRegion p l name sz).1 = false ↔
      regionIndexByName l.regions name = none ∨
      ∃ idx, regionIndexByName l.regions name = some idx ∧
        AlignToPageSize p.page_size sz <
          GetMinRegionSize p.page_size (l.regions.getD idx defaultRegion).spec) := by
  cases hidx : regionIndexByName l.regions name with
  | none =>
    rw [resizeRegion_of_none p l name sz hidx]
    constructor
    · constructor
      · intro _; exact Or.inl rfl
      · intro _; rfl
    · constructor
      · intro _; exact Or.inl rfl
      · intro _; rfl
  | some idx =>
    rw [resizeRegion_of_some p l name sz idx hidx]
    by_cases hlt : AlignToPageSize p.page_size sz <
        GetMinRegionSize p.page_size (l.regions.getD idx defaultRegion).spec
    · rw [if_pos hlt]
      constructor
      · constructor
        · intro _; exact Or.inr ⟨idx, rfl, hlt⟩
        · intro _; rfl
      · constructor
        · intro _; exact Or.inr ⟨idx, rfl, hlt⟩
        · intro _; rfl
    · rw [if_neg hlt]
      constructor
      · constructor
        · intro hcontra
          exact absurd (congrArg Prod.fst hcontra) (by simp)
        · rintro (hcase | ⟨idx', hidx', hlt'⟩)
          · simp at hcase
          · have heq : idx = idx' := Option.some.inj hidx'
            subst heq
            exact absurd hlt' hlt
      · constructor
        · intro hcontra
          simp at hcontra
        · rintro (hcase | ⟨idx', hidx', hlt'⟩)
          · simp at hcase
          · have heq : idx = idx' := Option.some.inj hidx'
            subst heq
            exact absurd hlt' hlt

/-! ### Behaviour of the doubling loop under 32-bit wraparound -/

theorem alignU32Loop_succ (fuel val p : Nat) :
    alignU32Loop (fuel + 1) val p =
      if p < val then alignU32Loop fuel val (2 * p % 2 ^ 32) else some p := rfl

theorem alignU32Loop_small : ∀ (n j val : Nat), val ≤ 2 ^ 31 →
    Nat.clog 2 val ≤ j + n →
    alignU32Loop (n + 1) val (2 ^ j) = some (2 ^ max j (Nat.clog 2 val)) := by
  intro n
  induction n with
  | zero =>
    intro j val hval h
    have hle : val ≤ 2 ^ j :=
      (Nat.le_pow_iff_clog_le (by norm_num : (1 : Nat) < 2)).mpr (by omega)
    rw [alignU32Loop_succ, if_neg (by omega), Nat.max_eq_left (by omega)]
  | succ n ih =>
    intro j val hval h
    rw [alignU32Loop_succ]
    by_cases hlt : 2 ^ j < val
    · rw [if_pos hlt]
      have hj : j < Nat.clog 2 val := by
        by_contra hh
        push_neg at hh
        have := (Nat.le_pow_iff_clog_le (by norm_num)).mpr hh
        omega
      have hc31 : Nat.clog 2 val ≤ 31 :=
        (Nat.le_pow_iff_clog_le (by norm_num)).mp hval
      have hj30 : j ≤ 30 := by omega
      have hpow : 2 * 2 ^ j % 2 ^ 32 = 2 ^ (j + 1) := by
        have h1 : 2 * 2 ^ j = 2 ^ (j + 1) := by
          rw [Nat.pow_succ, Nat.mul_comm]
        rw [h1]
        exact Nat.mod_eq_of_lt
          (Nat.pow_lt_pow_right (by norm_num) (by omega))
      rw [hpow, ih (j + 1) val hval (by omega)]
      rw [Nat.max_eq_right (by omega), Nat.max_eq_right (by omega)]
    · rw [if_neg hlt]
      have hc : Nat.clog 2 val ≤ j :=
        (Nat.le_pow_iff_clog_le (by norm_num)).mp (by omega)
      rw [Nat.max_eq_left hc]

theorem alignToPowerOf2U32_total (val : Nat) (h : val ≤ 2 ^ 31) :
    alignToPowerOf2U32 33 val = some (AlignToPowerOf2 val) := by
  have hclog : Nat.clog 2 val ≤ 31 :=
    (Nat.le_pow_iff_clog_le (by norm_num)).mp h
  unfold alignToPowerOf2U32
  rw [show (1 : Nat) = 2 ^ 0 from rfl,
    show (33 : Nat) = 32 + 1 from rfl,
    alignU32Loop_small 32 0 val h (by omega),
    Nat.max_eq_right (Nat.zero_le _), alignToPowerOf2_eq]

theorem alignU32Loop_diverges : ∀ (fuel val p : Nat), 2 ^ 31 < val →
    (p = 0 ∨ ∃ j, j ≤ 31 ∧ p = 2 ^ j) → alignU32Loop fuel val p = none := by
  intro fuel
  induction fuel with
  | zero => intro val p h hp; rfl
  | succ n ih =>
    intro val p h hp
    have hlt : p < val := by
      rcases hp with h0 | ⟨j, hj, hpj⟩
      · omega
      · have : 2 ^ j ≤ 2 ^ 31 := Nat.pow_le_pow_right (by norm_num) hj
        omega
    rw [alignU32Loop_succ, if_pos hlt]
    apply ih val _ h
    rcases hp with h0 | ⟨j, hj, hpj⟩
    · subst h0
      left
      simp
    · subst hpj
      by_cases hj31 : j = 31
      · subst hj31
        left
        norm_num
      · right
        refine ⟨j + 1, by omega, ?_⟩
        have h1 : 2 * 2 ^ j = 2 ^ (j + 1) := by
          rw [Nat.pow_succ, Nat.mul_comm]
        rw [h1]
        exact Nat.mod_eq_of_lt (Nat.pow_lt_pow_right (by norm_num) (by omega))

theorem alignToPowerOf2U32_diverges (fuel val : Nat) (h : 2 ^ 31 < val) :
    alignToPowerOf2U32 fuel val = none :=
  alignU32Loop_diverges fuel val 1 h (Or.inr ⟨0, by omega, rfl⟩)

/-! ### Serialization: `WriteLayout` -/

/-- `CURRENT_VSOC_LAYOUT_MAJOR_VERSION`; vsoc_memory.cpp statically asserts
this is 2. -/
def CURRENT_VSOC_LAYOUT_MAJOR_VERSION : Nat := 2

/-- Modelled from the spec: `VSOC_DEVICE_NAME_SZ`, the width of the
fixed-width nul-terminated `device_name` field of `vsoc_device_region`
(declared in `uapi/vsoc_shm.h`, which is outside the excerpt). -/
def VSOC_DEVICE_NAME_SZ : Nat := 16

/-- Modelled from the spec: `VSOC_REGION_WHOLE`, the reserved `managed_by`
value meaning "no manager" (declared in `uapi/vsoc_shm.h`, outside the
excerpt).  The warning in `VSoCMemoryLayout::Get` that the first region —
the one at index 0 — must not be the manager of other regions pins this
sentinel to index 0. -/
def VSOC_REGION_WHOLE : Nat := 0

/-- The `vsoc_signal_table_layout` fields written by
`WriteSignalTableDescription`. -/
structure SignalTableDesc where
  num_nodes_lg2 : Nat
  futex_uaddr_table_offset : Nat
  interrupt_signalled_offset : Nat
deriving DecidableEq

/-- The `vsoc_device_region` descriptor written by
`WriteRegionDescription` (plus the `managed_by` field filled in by
`WriteLayout`). -/
structure DeviceRegionDesc where
  current_version : Nat
  min_compatible_version : Nat
  region_begin_offset : Nat
  region_end_offset : Nat
  offset_of_region_data : Nat
  device_name : String
  guest_to_host_signal_table : SignalTableDesc
  host_to_guest_signal_table : SignalTableDesc
  managed_by : Nat
deriving DecidableEq

/-- The `vsoc_shm_layout_descriptor` global header written by
`WriteLayout`. -/
structure LayoutDescriptor where
  major_version : Nat
  minor_version : Nat
  size : Nat
  region_count : Nat
  vsoc_region_desc_offset : Nat
deriving DecidableEq

/-- The `strncpy` into the fixed-width `device_name` buffer: at most
`VSOC_DEVICE_NAME_SZ - 1` characters are copied and the buffer is always
nul-terminated. -/
def deviceName (s : String) : String :=
  String.mk (s.toList.take (VSOC_DEVICE_NAME_SZ - 1))

/-- `WriteSignalTableDescription`: table of `2 ^ log_size` words at
`offset`, then the interrupt signalled word; returns the descriptor and
the offset of the free space after it. -/
def WriteSignalTableDescription (offset log_size : Nat) :
    SignalTableDesc × Nat :=
  (⟨log_size, offset, offset + 2 ^ log_size * 4⟩, offset + 2 ^ log_size * 4 + 4)

/-- `WriteRegionDescription`: all fields of one region descriptor except
`managed_by` (set to the default `VSOC_REGION_WHOLE`, overwritten by the
caller), with the final `LOG(FATAL)` consistency check that the two signal
tables fit below `offset_of_region_data`. -/
def WriteRegionDescription (r : Region) : Except String DeviceRegionDesc :=
  if GetOffsetOfRegionData r.spec <
      (WriteSignalTableDescription
        (WriteSignalTableDescription 0
          r.spec.guest_to_host_signal_table_log_size).2
        r.spec.host_to_guest_signal_table_log_size).2 then
    Except.error "offset of region data too small"
  else
    Except.ok ⟨0, 0, r.begin_offset, r.begin_offset + r.size,
      GetOffsetOfRegionData r.spec,
      deviceName r.spec.region_name,
      (WriteSignalTableDescription 0
        r.spec.guest_to_host_signal_table_log_size).1,
      (WriteSignalTableDescription
        (WriteSignalTableDescription 0
          r.spec.guest_to_host_signal_table_log_size).2
        r.spec.host_to_guest_signal_table_log_size).1,
      VSOC_REGION_WHOLE⟩

/-- The `managed_by` handling of the `WriteLayout` loop body: no manager
writes the `VSOC_REGION_WHOLE` sentinel; a manager whose index equals the
sentinel is a fatal error. -/
def descManagedBy (all : List Region) (r : Region) (d : DeviceRegionDesc) :
    Except String DeviceRegionDesc :=
  match r.spec.managed_by with
  | none => Except.ok { d with managed_by := VSOC_REGION_WHOLE }
  | some m =>
    match regionIndexByName all m with
    | none => Except.error "manager region not found"
    | some manager_idx =>
      if manager_idx = VSOC_REGION_WHOLE then
        Except.error "manager has the index reserved for regions without an owner"
      else Except.ok { d with managed_by := manager_idx }

/-- One iteration of the `WriteLayout` loop for a region. -/
def writeOneRegion (all : List Region) (r : Region) :
    Except String DeviceRegionDesc :=
  match WriteRegionDescription r with
  | Except.error e => Except.error e
  | Except.ok d => descManagedBy all r d

/-- The `WriteLayout` loop over all regions, in declaration order. -/
def writeRegions (all : List Region) : List Region →
    Except String (List DeviceRegionDesc)
  | [] => Except.ok []
  | r :: rest =>
    match writeOneRegion all r with
    | Except.error e => Except.error e
    | Except.ok d =>
      match writeRegions all rest with
      | Except.error e => Except.error e
      | Except.ok ds => Except.ok (d :: ds)

/-- `VSoCMemoryLayoutImpl::WriteLayout`: the global header followed by one
descriptor per region. -/
def WriteLayout (p : Params) (l : Layout) :
    Except String (LayoutDescriptor × List DeviceRegionDesc) :=
  match writeRegions l.regions l.regions with
  | Except.error e => Except.error e
  | Except.ok descs =>
    Except.ok (⟨CURRENT_VSOC_LAYOUT_MAJOR_VERSION, p.minor_version,
      GetMemoryFileSize l, l.regions.length, p.layout_descriptor_size⟩, descs)

theorem writeRegionDescription_eq (r : Region) :
    WriteRegionDescription r = Except.ok
      ⟨0, 0, r.begin_offset, r.begin_offset + r.size,
        GetOffsetOfRegionData r.spec,
        deviceName r.spec.region_name,
        (WriteSignalTableDescription 0
          r.spec.guest_to_host_signal_table_log_size).1,
        (WriteSignalTableDescription
          (WriteSignalTableDescription 0
            r.spec.guest_to_host_signal_table_log_size).2
          r.spec.host_to_guest_signal_table_log_size).1,
        VSOC_REGION_WHOLE⟩ := by
  unfold WriteRegionDescription
  rw [if_neg]
  unfold WriteSignalTableDescription GetOffsetOfRegionData
  simp only []
  omega

/-- Specification of the fields of one successfully written descriptor. -/
def DescOk (all : List Region) (r : Region) (d : DeviceRegionDesc) : Prop :=
  d.region_begin_offset = r.begin_offset ∧
  d.region_end_offset = r.begin_offset + r.size ∧
  d.offset_of_region_data = GetOffsetOfRegionData r.spec ∧
  (r.spec.managed_by = none → d.managed_by = VSOC_REGION_WHOLE) ∧
  (∀ m, r.spec.managed_by = some m →
    regionIndexByName all m = some d.managed_by ∧
      d.managed_by ≠ VSOC_REGION_WHOLE)

theorem writeOneRegion_ok_spec (all : List Region) (r : Region)
    (d : DeviceRegionDesc) (h : writeOneRegion all r = Except.ok d) :
    DescOk all r d := by
  unfold writeOneRegion at h
  rw [writeRegionDescription_eq] at h
  cases hm : r.spec.managed_by with
  | none =>
    simp only [descManagedBy, hm] at h
    have hd := Except.ok.inj h
    subst hd
    refine ⟨rfl, rfl, rfl, fun _ => rfl, ?_⟩
    intro m hmm
    rw [hm] at hmm
    exact absurd hmm (by simp)
  | some m =>
    simp only [descManagedBy, hm] at h
    cases hk : regionIndexByName all m with
    | none =>
      simp only [hk] at h
      exact Except.noConfusion h
    | some k =>
      simp only [hk] at h
      by_cases hz : k = VSOC_REGION_WHOLE
      · rw [if_pos hz] at h
        exact Except.noConfusion h
      · rw [if_neg hz] at h
        have hd := Except.ok.inj h
        subst hd
        refine ⟨rfl, rfl, rfl, ?_, ?_⟩
        · intro hmm
          rw [hm] at hmm
          exact absurd hmm (by simp)
        · intro m' hmm
          rw [hm, Option.some.injEq] at hmm
          subst hmm
          exact ⟨hk, hz⟩

theorem writeOneRegion_sentinel_fails (all : List Region) (r : Region)
    (m : String) (hm : r.spec.managed_by = some m)
    (hk : regionIndexByName all m = some VSOC_REGION_WHOLE) :
    ∀ d, writeOneRegion all r ≠ Except.ok d := by
  intro d h
  unfold writeOneRegion at h
  rw [writeRegionDescription_eq] at h
  simp only [descManagedBy, hm, hk, if_pos] at h
  exact Except.noConfusion h

theorem writeRegions_ok_spec : ∀ (all rs : List Region)
    (ds : List DeviceRegionDesc), writeRegions all rs = Except.ok ds →
    ds.length = rs.length ∧
    ∀ (i : Nat) (r : Region) (d : DeviceRegionDesc),
      rs[i]? = some r → ds[i]? = some d → DescOk all r d := by
  intro all rs
  induction rs with
  | nil =>
    intro ds h
    have : ([] : List DeviceRegionDesc) = ds := Except.ok.inj h
    subst this
    exact ⟨rfl, fun i r d hr => by simp at hr⟩
  | cons r rest ih =>
    intro ds h
    unfold writeRegions at h
    cases h1 : writeOneRegion all r with
    | error e =>
      rw [h1] at h
      exact absurd h (by simp)
    | ok d0 =>
      rw [h1] at h
      cases h2 : writeRegions all rest with
      | error e =>
        rw [h2] at h
        exact absurd h (by simp)
      | ok ds0 =>
        rw [h2] at h
        have hd := Except.ok.inj h
        subst hd
        obtain ⟨hlen, hspec⟩ := ih ds0 h2
        constructor
        · rw [List.length_cons, List.length_cons, hlen]
        · intro i rr dd hr hdd
          cases i with
          | zero =>
            rw [List.getElem?_cons_zero, Option.some.injEq] at hr hdd
            subst hr
            subst hdd
            exact writeOneRegion_ok_spec all _ _ h1
          | succ j =>
            rw [List.getElem?_cons_succ] at hr hdd
            exact hspec j rr dd hr hdd

theorem writeRegions_sentinel_fails : ∀ (all rs : List Region) (r : Region)
    (m : String), r ∈ rs → r.spec.managed_by = some m →
    regionIndexByName all m = some VSOC_REGION_WHOLE →
    ∀ ds, writeRegions all rs ≠ Except.ok ds := by
  intro all rs
  induction rs with
  | nil =>
    intro r m hmem
    simp at hmem
  | cons r0 rest ih =>
    intro r m hmem hm hk ds h
    unfold writeRegions at h
    rcases List.mem_cons.mp hmem with hr0 | hrest
    · subst hr0
      cases h1 : writeOneRegion all r with
      | error e => rw [h1] at h; exact absurd h (by simp)
      | ok d0 => exact writeOneRegion_sentinel_fails all r m hm hk d0 h1
    · cases h1 : writeOneRegion all r0 with
      | error e => rw [h1] at h; exact absurd h (by simp)
      | ok d0 =>
        rw [h1] at h
        cases h2 : writeRegions all rest with
        | error e => rw [h2] at h; exact absurd h (by simp)
        | ok ds0 => exact ih r m hrest hm hk ds0 h2

end Vsoc

namespace SocketProxy

/-- Modelled from the spec: the Packet framer (spec section 4.3) — a value
with a bounded payload and a distinct end-of-stream marker.  The `Packet`
class is declared in `socket_forward_region_view.h`, outside the excerpt;
only the members the proxy loops read are modelled: the payload bytes
(`payload()` together with `payload_length()`, the length of the list) and
the `IsEnd()` flag. -/
structure Packet where
  payload : List Nat
  is_end_of_stream : Bool
deriving DecidableEq

/-- Stop causes of the `ShmToSocket` loop. -/
inductive StopReason where
  | endOfStream
  | socketError
deriving DecidableEq

/-- Observable outcome of a terminated `ShmToSocket` loop: the bytes handed
to the socket in order, whether the send side was shut down (the
`SocketSender` destructor runs `Shutdown(SHUT_WR)` on every function
exit), and why the loop stopped. -/
structure PumpOut where
  delivered : List Nat
  shut_wr : Bool
  reason : StopReason
deriving DecidableEq

/-- `SocketSender::SendAll`: loop `Send`ing the unwritten remainder of the
payload.  The TCP socket is an external collaborator (an OS descriptor
behind `cvd::SharedFD`), so it is an oracle: one `(IsOpen result, Send
result)` pair per iteration.  Returns the `ssize_t` result (`-1` for a
closed socket, the failing `Send` result when it is `≤ 0`, otherwise the
total written), the bytes handed to the socket in order, and the
unconsumed oracle; `none` when the oracle runs out while the loop still
runs. -/
def SendAll (payload : List Nat) : List (Bool × Int) → Nat → List Nat →
    Option (Int × List Nat × List (Bool × Int))
  | [], written, delivered =>
    if written < payload.length then none
    else some ((written : Int), delivered, [])
  | (isOpen, res) :: rest, written, delivered =>
    if written < payload.length then
      if isOpen = false then some (-1, delivered, rest)
      else if res ≤ 0 then some (res, delivered, rest)
      else SendAll payload rest (written + res.toNat)
        (delivered ++ (payload.drop written).take res.toNat)
    else some ((written : Int), delivered, (isOpen, res) :: rest)

/-- `ShmToSocket`: receive packets (the channel `Receiver` is an external
collaborator, modelled as the list of packets it will yield); stop on an
end-of-stream packet, otherwise `SendAll` the payload and stop if it
returns a negative value.  Every exit path reports `shut_wr = true`
because the `SocketSender` destructor runs at function exit; `none` models
the loop still blocked (out of received packets or out of socket
oracle). -/
def ShmToSocket : List Packet → List (Bool × Int) → Option PumpOut
  | [], _ => none
  | pkt :: rest, oracle =>
    if pkt.is_end_of_stream then some ⟨[], true, StopReason.endOfStream⟩
    else
      match SendAll pkt.payload oracle 0 [] with
      | none => none
      | some (w, d, oracle') =>
        if w < 0 then some ⟨d, true, StopReason.socketError⟩
        else (ShmToSocket rest oracle').map
          (fun q => ⟨d ++ q.delivered, q.shut_wr, q.reason⟩)

/-- `OpenSocketConnection` (guest side): dial `SocketLocalClient` until the
returned socket is open, sleeping one second after every failure.  The
oracle lists the success of each attempt; the result counts the failed
attempts before the first success (equal to the seconds slept); `none`
means every listed attempt failed and the loop is still running. -/
def OpenSocketConnection : List Bool → Option Nat
  | [] => none
  | ok :: rest =>
    if ok then some 0
    else (OpenSocketConnection rest).map (· + 1)

theorem sendAll_delivered : ∀ (oracle : List (Bool × Int))
    (payload : List Nat) (written : Nat) (w : Int) (d : List Nat)
    (o' : List (Bool × Int)),
    SendAll payload oracle written (payload.take written) = some (w, d, o') →
    (∃ n, d = payload.take n) ∧ (payload.length ≤ w.toNat → d = payload) := by
  intro oracle
  induction oracle with
  | nil =>
    intro payload written w d o' h
    simp only [SendAll] at h
    by_cases hlt : written < payload.length
    · rw [if_pos hlt] at h
      exact Option.noConfusion h
    · rw [if_neg hlt] at h
      rw [Option.some.injEq, Prod.mk.injEq] at h
      obtain ⟨hw, hrest⟩ := h
      rw [Prod.mk.injEq] at hrest
      obtain ⟨hd, _⟩ := hrest
      subst hw
      refine ⟨⟨written, hd.symm⟩, fun _ => ?_⟩
      rw [← hd]
      exact List.take_of_length_le (by omega)
  | cons e rest ih =>
    intro payload written w d o' h
    obtain ⟨isOpen, res⟩ := e
    simp only [SendAll] at h
    by_cases hlt : written < payload.length
    · rw [if_pos hlt] at h
      by_cases hopen : isOpen = false
      · rw [if_pos hopen] at h
        rw [Option.some.injEq, Prod.mk.injEq] at h
        obtain ⟨hw, hrest⟩ := h
        rw [Prod.mk.injEq] at hrest
        obtain ⟨hd, _⟩ := hrest
        subst hw
        refine ⟨⟨written, hd.symm⟩, fun hlen => ?_⟩
        have hp : payload = [] := List.eq_nil_of_length_eq_zero (by
          have : ((-1 : Int)).toNat = 0 := by decide
          omega)
        subst hp
        rw [← hd]
        simp
      · rw [if_neg hopen] at h
        by_cases hres : res ≤ 0
        · rw [if_pos hres] at h
          rw [Option.some.injEq, Prod.mk.injEq] at h
          obtain ⟨hw, hrest⟩ := h
          rw [Prod.mk.injEq] at hrest
          obtain ⟨hd, _⟩ := hrest
          subst hw
          refine ⟨⟨written, hd.symm⟩, fun hlen => ?_⟩
          have hz : res.toNat = 0 := Int.toNat_of_nonpos hres
          have hp : payload = [] := List.eq_nil_of_length_eq_zero (by omega)
          subst hp
          rw [← hd]
          simp
        · rw [if_neg hres] at h
          rw [← List.take_add] at h
          exact ih payload (written + res.toNat) w d o' h
    · rw [if_neg hlt] at h
      rw [Option.some.injEq, Prod.mk.injEq] at h
      obtain ⟨hw, hrest⟩ := h
      rw [Prod.mk.injEq] at hrest
      obtain ⟨hd, _⟩ := hrest
      subst hw
      refine ⟨⟨written, hd.symm⟩, fun _ => ?_⟩
      rw [← hd]
      exact List.take_of_length_le (by omega)

theorem shmToSocket_eos (pkt : Packet) (rest : List Packet)
    (oracle : List (Bool × Int)) (h : pkt.is_end_of_stream = true) :
    ShmToSocket (pkt :: rest) oracle =
      some ⟨[], true, StopReason.endOfStream⟩ := by
  unfold ShmToSocket
  rw [if_pos h]

theorem shmToSocket_error (pkt : Packet) (rest : List Packet)
    (oracle : List (Bool × Int)) (w : Int) (d : List Nat)
    (o' : List (Bool × Int)) (hne : pkt.is_end_of_stream = false)
    (hs : SendAll pkt.payload oracle 0 [] = some (w, d, o')) (hw : w < 0) :
    ShmToSocket (pkt :: rest) oracle =
      some ⟨d, true, StopReason.socketError⟩ := by
  unfold ShmToSocket
  rw [if_neg (by rw [hne]; exact Bool.false_ne_true)]
  simp only [hs]
  rw [if_pos hw]

theorem shmToSocket_continue (pkt : Packet) (rest : List Packet)
    (oracle : List (Bool × Int)) (w : Int) (d : List Nat)
    (o' : List (Bool × Int)) (hne : pkt.is_end_of_stream = false)
    (hs : SendAll pkt.payload oracle 0 [] = some (w, d, o')) (hw : 0 ≤ w) :
    ShmToSocket (pkt :: rest) oracle = (ShmToSocket rest o').map
      (fun q => ⟨d ++ q.delivered, q.shut_wr, q.reason⟩) := by
  conv_lhs => rw [ShmToSocket]
  rw [if_neg (by rw [hne]; exact Bool.false_ne_true)]
  simp only [hs]
  rw [if_neg (by omega)]

theorem sendAll_zero_result (payload : List Nat) (oracle : List (Bool × Int))
    (h : 0 < payload.length) :
    SendAll payload ((true, (0 : Int)) :: oracle) 0 [] =
      some (0, [], oracle) := by
  simp only [SendAll]
  rw [if_pos h, if_neg (by simp), if_pos (le_refl (0 : Int))]

theorem openSocketConnection_spec : ∀ (attempts : List Bool) (k : Nat),
    OpenSocketConnection attempts = some k →
    attempts[k]? = some true ∧ ∀ j, j < k → attempts[j]? = some false := by
  intro attempts
  induction attempts with
  | nil => intro k h; exact Option.noConfusion h
  | cons ok rest ih =>
    intro k h
    simp only [OpenSocketConnection] at h
    by_cases hok : ok = true
    · rw [if_pos hok] at h
      have hk := Option.some.inj h
      subst hk
      subst hok
      exact ⟨List.getElem?_cons_zero, fun j hj => absurd hj (by omega)⟩
    · rw [if_neg hok] at h
      rcases Option.map_eq_some'.mp h with ⟨k', hk', hkk⟩
      obtain ⟨h1, h2⟩ := ih k' hk'
      subst hkk
      constructor
      · rw [List.getElem?_cons_succ]
        exact h1
      · intro j hj
        cases j with
        | zero =>
          rw [List.getElem?_cons_zero, Option.some.injEq]
          cases ok with
          | false => rfl
          | true => exact absurd rfl hok
        | succ j' =>
          rw [List.getElem?_cons_succ]
          exact h2 j' (by omega)

theorem openSocketConnection_replicate_false (n : Nat) :
    OpenSocketConnection (List.replicate n false) = none := by
  induction n with
  | zero => rfl
  | succ m ih =>
    rw [List.replicate_succ]
    simp only [OpenSocketConnection]
    rw [if_neg (by simp), ih]
    rfl

end SocketProxy

/-! ## Claim theorems -/

namespace Vsoc

/-- Concrete planner environment for witnesses: page size 16, a 32-byte
global header, 16-byte region descriptors, minor version 0.  All
invariants proved above are parametric in these values. -/
def testParams : Params := ⟨16, 32, 16, 0⟩

/-- A minimal region spec ("a", no payload, log sizes 0, no manager). -/
def specA : RegionSpec := ⟨"a", 0, 0, 0, none⟩

/-- A second region spec ("b"). -/
def specB : RegionSpec := ⟨"b", 0, 0, 0, none⟩

/-- Two-region declaration list used by the witnesses. -/
def testSpecs : List RegionSpec := [specA, specB]

/-- The layout a successful construction produces (the inputs used below
all construct successfully). -/
def layoutOf (p : Params) (specs : List RegionSpec) : Layout :=
  ((mkLayout p specs).toOption).getD ⟨[], 0⟩

/-- Whether an `Except` result is a success. -/
def exceptOk {ε α : Type} : Except ε α → Bool
  | Except.ok _ => true
  | Except.error _ => false

/-- C1: contrary to the claim, the `VSoCMemoryLayoutImpl` constructor
accepts a `managed_by` reference to a region declared later in the list
and even a region managed by itself: the name map it consults is built
from the complete region vector, so only a reference to a wholly unknown
name is fatal.  Construction succeeds on both inputs below although the
spec (and the constructor's own fatal-error message, "Manager Regions
must be declared before the regions they manage") requires failure. -/
theorem c1_later_and_self_manager_accepted :
    exceptOk (mkLayout testParams
      [⟨"a", 0, 0, 0, some "b"⟩, ⟨"b", 0, 0, 0, none⟩]) = true ∧
    exceptOk (mkLayout testParams [⟨"s", 0, 0, 0, some "s"⟩]) = true :=
  ⟨rfl, rfl⟩

/-- C2: after construction and after every successful `ResizeRegion` the
layout is well-formed: the first region begins at the page-aligned size of
the global header plus the descriptor table, every `begin_offset` and
`region_size` is a multiple of the page size, and consecutive regions are
contiguous (`begin_offset[i] + region_size[i] = begin_offset[i+1]`). -/
theorem c2_layout_invariants (p : Params) :
    (∀ specs l, mkLayout p specs = Except.ok l → WellFormed p l) ∧
    (∀ l l' name sz, WellFormed p l → ResizeRegion p l name sz = (true, l') →
      WellFormed p l') :=
  ⟨fun specs l h => mkLayout_wellFormed p specs l h,
   fun l l' name sz hwf h => resize_wellFormed p l l' name sz hwf h⟩

theorem c2_witness :
    WellFormed testParams (layoutOf testParams testSpecs) ∧
    WellFormed testParams
      (ResizeRegion testParams (layoutOf testParams testSpecs) "a" 32).2 := by
  have h1 : WellFormed testParams (layoutOf testParams testSpecs) :=
    (c2_layout_invariants testParams).1 testSpecs (layoutOf testParams testSpecs) rfl
  exact ⟨h1, (c2_layout_invariants testParams).2 (layoutOf testParams testSpecs)
    (ResizeRegion testParams (layoutOf testParams testSpecs) "a" 32).2
    "a" 32 h1 rfl⟩

/-- C3 counterexample: the claim as stated is false.  With page size 16,
region "a" needs at least 16 bytes; requesting 15 — strictly smaller than
the minimum required size — nevertheless succeeds (returns true), because
`ResizeRegion` aligns the request up to the page size before comparing it
with the minimum. -/
theorem c3_counterexample :
    15 < GetMinRegionSize testParams.page_size specA ∧
    (ResizeRegion testParams (layoutOf testParams testSpecs) "a" 15).1 =
      true :=
  ⟨by decide, rfl⟩

/-- C3 (amended): `ResizeRegion` returns false and leaves the layout
unchanged exactly when the named region does not exist or the requested
size, after page alignment, is smaller than the region's minimum required
size. -/
theorem c3_resize_reject (p : Params) (l : Layout) (name : String)
    (sz : Nat) :
    (ResizeRegion p l name sz = (false, l) ↔
      regionIndexByName l.regions name = none ∨
      ∃ idx, regionIndexByName l.regions name = some idx ∧
        AlignToPageSize p.page_size sz <
          GetMinRegionSize p.page_size
            (l.regions.getD idx defaultRegion).spec) ∧
    ((ResizeRegion p l name sz).1 = false ↔
      regionIndexByName l.regions name = none ∨
      ∃ idx, regionIndexByName l.regions name = some idx ∧
        AlignToPageSize p.page_size sz <
          GetMinRegionSize p.page_size
            (l.regions.getD idx defaultRegion).spec) :=
  resize_reject_iff p l name sz

/-- C4: a successful resize of the region at index `idx` preserves the
number of regions, every region before `idx` entirely, the begin offset
and spec of region `idx` itself, and the sizes and specs of every region
after `idx` (only their begin offsets, and the device size, change). -/
theorem c4_resize_frame (p : Params) (l l' : Layout) (name : String)
    (sz idx : Nat) (hidx : regionIndexByName l.regions name = some idx)
    (h : ResizeRegion p l name sz = (true, l')) :
    l'.regions.length = l.regions.length ∧
    (∀ i, i < idx → l'.regions[i]? = l.regions[i]?) ∧
    (l'.regions[idx]?).map Region.begin_offset =
      (l.regions[idx]?).map Region.begin_offset ∧
    (l'.regions[idx]?).map Region.spec = (l.regions[idx]?).map Region.spec ∧
    (∀ i, idx < i →
      (l'.regions[i]?).map Region.size = (l.regions[i]?).map Region.size ∧
      (l'.regions[i]?).map Region.spec = (l.regions[i]?).map Region.spec) :=
  resize_frame_helper p l l' name sz idx hidx h

theorem c4_witness :
    (ResizeRegion testParams (layoutOf testParams testSpecs) "b" 32).2.regions.length =
      (layoutOf testParams testSpecs).regions.length ∧
    (ResizeRegion testParams (layoutOf testParams testSpecs) "b" 32).2.regions[0]? =
      (layoutOf testParams testSpecs).regions[0]? := by
  have h := c4_resize_frame testParams (layoutOf testParams testSpecs)
    (ResizeRegion testParams (layoutOf testParams testSpecs) "b" 32).2
    "b" 32 1 rfl rfl
  exact ⟨h.1, h.2.1 0 (by omega)⟩

/-- C5: after construction and after every successful resize, the device
size is a power of two, is at least the end offset of the last region, and
is the smallest such power of two. -/
theorem c5_device_size (p : Params) :
    (∀ specs l, mkLayout p specs = Except.ok l → DeviceSizeOk l) ∧
    (∀ l l' name sz, ResizeRegion p l name sz = (true, l') →
      DeviceSizeOk l') :=
  ⟨fun specs l h => mkLayout_deviceSizeOk p specs l h,
   fun l l' name sz h => resize_deviceSizeOk p l l' name sz h⟩

theorem c5_witness :
    DeviceSizeOk (layoutOf testParams testSpecs) ∧
    DeviceSizeOk
      (ResizeRegion testParams (layoutOf testParams testSpecs) "a" 48).2 :=
  ⟨(c5_device_size testParams).1 testSpecs (layoutOf testParams testSpecs) rfl,
   (c5_device_size testParams).2 (layoutOf testParams testSpecs)
     (ResizeRegion testParams (layoutOf testParams testSpecs) "a" 48).2
     "a" 48 rfl⟩

/-- C6: a successful `WriteLayout` produces the header
(major version 2, the configured minor version, the device size, the
region count and the descriptor-table offset equal to the header size)
and one descriptor per region, in declaration order, whose end offset is
`begin_offset + region_size`, whose data offset is the signal-table
overhead, and whose `managed_by` is the manager's index (never the
sentinel) or the `VSOC_REGION_WHOLE` sentinel when there is no manager;
and serialization fails whenever some region's manager has index equal to
the sentinel. -/
theorem c6_write_layout (p : Params) (l : Layout) :
    (∀ hdr descs, WriteLayout p l = Except.ok (hdr, descs) →
      hdr.major_version = 2 ∧ hdr.minor_version = p.minor_version ∧
      hdr.size = GetMemoryFileSize l ∧
      hdr.region_count = l.regions.length ∧
      hdr.vsoc_region_desc_offset = p.layout_descriptor_size ∧
      descs.length = l.regions.length ∧
      (∀ (i : Nat) (r : Region) (d : DeviceRegionDesc),
        l.regions[i]? = some r → descs[i]? = some d →
        DescOk l.regions r d)) ∧
    (∀ r m, r ∈ l.regions → r.spec.managed_by = some m →
      regionIndexByName l.regions m = some VSOC_REGION_WHOLE →
      ∀ res, WriteLayout p l ≠ Except.ok res) := by
  constructor
  · intro hdr descs h
    unfold WriteLayout at h
    cases hw : writeRegions l.regions l.regions with
    | error e =>
      rw [hw] at h
      exact Except.noConfusion h
    | ok ds =>
      rw [hw] at h
      have hinj := Except.ok.inj h
      rw [Prod.mk.injEq] at hinj
      obtain ⟨hh, hd⟩ := hinj
      subst hh
      subst hd
      obtain ⟨hlen, hspec⟩ := writeRegions_ok_spec l.regions l.regions ds hw
      exact ⟨rfl, rfl, rfl, rfl, rfl, hlen, hspec⟩
  · intro r m hmem hm hk res h
    unfold WriteLayout at h
    cases hw : writeRegions l.regions l.regions with
    | error e =>
      rw [hw] at h
      exact Except.noConfusion h
    | ok ds =>
      exact writeRegions_sentinel_fails l.regions l.regions r m hmem hm hk
        ds hw

/-- Manager region declared first (index 0, colliding with the sentinel). -/
def specM : RegionSpec := ⟨"m", 0, 0, 0, none⟩

/-- A region managed by the index-0 region "m". -/
def specManaged : RegionSpec := ⟨"n", 0, 0, 0, some "m"⟩

/-- A layout whose manager sits at index 0 — legal to construct, fatal to
serialize. -/
def badLayout : Layout := layoutOf testParams [specM, specManaged]

/-- The managed region of `badLayout`. -/
def badRegion : Region := badLayout.regions.getD 1 defaultRegion

theorem c6_witness :
    WriteLayout testParams badLayout ≠
      Except.ok (⟨2, 0, GetMemoryFileSize badLayout, 2, 32⟩, []) :=
  (c6_write_layout testParams badLayout).2 badRegion "m" (by decide) rfl rfl
    (⟨2, 0, GetMemoryFileSize badLayout, 2, 32⟩, [])

/-- C9: on mathematical integers `AlignToPowerOf2` returns the smallest
power of two that is at least its input (1 for input 0); under faithful
`uint32_t` semantics the loop returns that same value within 33 guard
evaluations for every input at most `2 ^ 31`, and for every 32-bit input
strictly greater than `2 ^ 31` the doubling wraps around and the loop
never terminates, whatever fuel it is given. -/
theorem c9_align_to_power_of2 :
    (∀ val, val ≤ 2 ^ 31 →
      alignToPowerOf2U32 33 val = some (AlignToPowerOf2 val)) ∧
    AlignToPowerOf2 0 = 1 ∧
    (∀ val, (∃ k, AlignToPowerOf2 val = 2 ^ k) ∧
      val ≤ AlignToPowerOf2 val ∧
      ∀ m, val ≤ 2 ^ m → AlignToPowerOf2 val ≤ 2 ^ m) ∧
    (∀ fuel val, 2 ^ 31 < val → val < 2 ^ 32 →
      alignToPowerOf2U32 fuel val = none) :=
  ⟨fun val h => alignToPowerOf2U32_total val h,
   rfl,
   fun val => ⟨⟨Nat.clog 2 val, alignToPowerOf2_eq val⟩,
     le_alignToPowerOf2 val, fun m hm => alignToPowerOf2_le_pow val m hm⟩,
   fun fuel val h _ => alignToPowerOf2U32_diverges fuel val h⟩

theorem c9_witness :
    alignToPowerOf2U32 33 5 = some (AlignToPowerOf2 5) ∧
    alignToPowerOf2U32 40 (2 ^ 31 + 1) = none :=
  ⟨c9_align_to_power_of2.1 5 (by decide),
   c9_align_to_power_of2.2.2.2 40 (2 ^ 31 + 1) (by decide) (by decide)⟩

end Vsoc

namespace SocketProxy

/-- C7: in the Channel-to-Socket loop, an end-of-stream packet stops the
loop immediately (further received packets are ignored) and the socket
send side is shut down; for any other packet a successful `SendAll`
delivers a prefix of the payload, delivers the whole payload in order
when its result covers the payload length; and a negative `SendAll`
result stops the loop with exactly the bytes delivered so far. -/
theorem c7_shm_to_socket :
    (∀ (pkt : Packet) (rest : List Packet) (oracle : List (Bool × Int)),
      pkt.is_end_of_stream = true →
      ShmToSocket (pkt :: rest) oracle =
        some ⟨[], true, StopReason.endOfStream⟩) ∧
    (∀ (payload : List Nat) (oracle : List (Bool × Int)) (w : Int)
      (d : List Nat) (o' : List (Bool × Int)),
      SendAll payload oracle 0 [] = some (w, d, o') →
      (∃ n, d = payload.take n) ∧
        (payload.length ≤ w.toNat → d = payload)) ∧
    (∀ (pkt : Packet) (rest : List Packet) (oracle : List (Bool × Int))
      (w : Int) (d : List Nat) (o' : List (Bool × Int)),
      pkt.is_end_of_stream = false →
      SendAll pkt.payload oracle 0 [] = some (w, d, o') → w < 0 →
      ShmToSocket (pkt :: rest) oracle =
        some ⟨d, true, StopReason.socketError⟩) :=
  ⟨shmToSocket_eos,
   fun payload oracle w d o' h =>
     sendAll_delivered oracle payload 0 w d o' h,
   shmToSocket_error⟩

theorem c7_witness :
    ShmToSocket [Packet.mk [1, 2] true] [] =
      some ⟨[], true, StopReason.endOfStream⟩ ∧
    ([5, 6] : List Nat) = [5, 6] ∧
    ShmToSocket [Packet.mk [7] false] [(false, (0 : Int))] =
      some ⟨[], true, StopReason.socketError⟩ :=
  ⟨c7_shm_to_socket.1 ⟨[1, 2], true⟩ [] [] rfl,
   (c7_shm_to_socket.2.1 [5, 6] [(true, 1), (true, 1)] 2 [5, 6] [] rfl).2
     (by decide),
   c7_shm_to_socket.2.2 ⟨[7], false⟩ [] [(false, 0)] (-1) [] [] rfl rfl
     (by decide)⟩

/-- C8: `OpenSocketConnection` returns only at the first successful dial
attempt — every earlier attempt failed and only delayed the next one by a
one-second sleep — and after any number of consecutive failures the loop
is still running (no retry ceiling, no abort, no error propagation). -/
theorem c8_open_socket_connection :
    (∀ (attempts : List Bool) (k : Nat),
      OpenSocketConnection attempts = some k →
      attempts[k]? = some true ∧ ∀ j, j < k → attempts[j]? = some false) ∧
    (∀ n, OpenSocketConnection (List.replicate n false) = none) :=
  ⟨openSocketConnection_spec, openSocketConnection_replicate_false⟩

theorem c8_witness :
    ([false, false, true] : List Bool)[2]? = some true :=
  (c8_open_socket_connection.1 [false, false, true] 2 rfl).1

/-- C10: if the first `Send` call returns exactly 0 on a nonempty payload,
`SendAll` returns the non-negative value 0 with nothing delivered, and
because the Channel-to-Socket loop stops only on a strictly negative
`SendAll` result, pumping continues with the next received packet. -/
theorem c10_send_zero :
    (∀ (payload : List Nat) (oracle : List (Bool × Int)),
      0 < payload.length →
      SendAll payload ((true, (0 : Int)) :: oracle) 0 [] =
        some (0, [], oracle)) ∧
    (∀ (pkt : Packet) (rest : List Packet) (oracle : List (Bool × Int))
      (w : Int) (d : List Nat) (o' : List (Bool × Int)),
      pkt.is_end_of_stream = false →
      SendAll pkt.payload oracle 0 [] = some (w, d, o') → 0 ≤ w →
      ShmToSocket (pkt :: rest) oracle = (ShmToSocket rest o').map
        (fun q => ⟨d ++ q.delivered, q.shut_wr, q.reason⟩)) :=
  ⟨sendAll_zero_result, shmToSocket_continue⟩

theorem c10_witness :
    SendAll [9] [(true, (0 : Int))] 0 [] = some (0, [], []) ∧
    ShmToSocket [Packet.mk [9] false, Packet.mk [] true]
        [(true, (0 : Int))] =
      (ShmToSocket [Packet.mk [] true] []).map
        (fun q => ⟨[] ++ q.delivered, q.shut_wr, q.reason⟩) :=
  ⟨c10_send_zero.1 [9] [] (by decide),
   c10_send_zero.2 ⟨[9], false⟩ [⟨[], true⟩] [(true, 0)] 0 [] [] rfl rfl
     (by decide)⟩

end SocketProxy
